import Mathlib

/-!
Verification development for the `validate_drp` measurement and reporting code.

Shallow embedding conventions:
* Real-valued quantities are modelled by `ℚ`; the IEEE NaN value is modelled
  by the `none` case of `Option ℚ` (abbreviated `RVal`).  The claims under
  study are about exact statistical formulas and NaN propagation, not about
  binary rounding, so the rational model is faithful for them.
* Python dictionaries are modelled as association lists with Python's
  semantics: lookup finds the first (unique) matching key, an insert of an
  existing key replaces the value in place, and `dict.update` folds inserts
  of the other dict's entries (later entries win).
* Code that can raise a Python exception (missing key, bad indexing,
  `np.percentile` on empty data, failed JSON deserialization) is embedded as
  an `Option`-returning function, `none` meaning the exception propagates.
-/

namespace ValidateDrp

/-- A real value as held by a numpy float: `none` models NaN. -/
abbrev RVal := Option ℚ

/-- NaN-propagating addition: `x + nan = nan`. -/
def addR (a b : RVal) : RVal :=
  match a, b with
  | some x, some y => some (x + y)
  | _, _ => none

/-- NaN-propagating multiplication as numpy performs it on floats
(`100. * nan = nan`). -/
def mulR (a b : RVal) : RVal :=
  match a, b with
  | some x, some y => some (x * y)
  | _, _ => none

/-- numpy elementwise `>` comparison: any comparison with NaN is `False`. -/
def gtR (r t : RVal) : Bool :=
  match r, t with
  | some x, some y => decide (y < x)
  | _, _ => false

/-- numpy absolute value: `abs nan = nan`. -/
def absR (a : RVal) : RVal := a.map (fun v => |v|)

/-- `np.mean` of a boolean mask: the fraction of `true` entries; the mean of
an empty array is NaN. -/
def meanBools (bs : List Bool) : RVal :=
  if bs.length = 0 then none
  else some ((bs.countP id : ℚ) / (bs.length : ℚ))

/-! ### Python dict model -/

/-- Keys of a dict. -/
def dictKeys {κ α : Type} (d : List (κ × α)) : List κ := d.map Prod.fst

/-- Python `d[k]` read: the (unique) entry with key `k`, `none` on a missing
key (a `KeyError`). -/
def dictGet {κ α : Type} [DecidableEq κ] : List (κ × α) → κ → Option α
  | [], _ => none
  | p :: d, k => if p.1 = k then some p.2 else dictGet d k

/-- Python `d[k] = v`: replace the value in place when the key exists,
append the new entry otherwise (insertion order is preserved). -/
def dictInsert {κ α : Type} [DecidableEq κ] : List (κ × α) → κ → α → List (κ × α)
  | [], k, v => [(k, v)]
  | p :: d, k, v => if p.1 = k then (k, v) :: d else p :: dictInsert d k v

/-- Python `d.update(other)`: insert every entry of `other` into `d` in order
(entries of `other` win on key collisions). -/
def dictUpdate {κ α : Type} [DecidableEq κ] : List (κ × α) → List (κ × α) → List (κ × α)
  | d, [] => d
  | d, p :: rest => dictUpdate (dictInsert d p.1 p.2) rest

/-! ### Quantities, datums and measurements (afx.py / pa2.py) -/

/-- An `astropy` quantity as the measurement code uses it: a scalar, a 1-D
array, or a 2-D array, tagged with its unit string. -/
inductive PyQty where
  | scalar (value : RVal) (unit : String)
  | vec (values : List RVal) (unit : String)
  | mat (values : List (List RVal)) (unit : String)
deriving DecidableEq

/-- An `lsst.verify.Datum`: a labelled quantity with a description. -/
structure Datum where
  quantity : PyQty
  description : String
deriving DecidableEq

/-- An `lsst.verify.Measurement` as consumed/produced by the calcsrd code:
a metric name, a quantity, and an extras mapping of named datums. -/
structure Meas where
  metric : String
  quantity : PyQty
  extras : List (String × Datum)
deriving DecidableEq

/-- The slice of an AMx/ADx measurement object that `measureAFx` reads:
its `datum` attribute. -/
structure AdxMeasurement where
  datum : Datum
deriving DecidableEq

/-- The slice of an ADx specification object that `measureAFx` reads:
its `threshold` attribute. -/
structure AdxSpec where
  threshold : RVal
deriving DecidableEq

/-- `np.isnan` on a measurement quantity; applying the scalar `if` to an
array argument raises, hence `Option`. -/
def isnanScalar : PyQty → Option Bool
  | PyQty.scalar v _ => some v.isNone
  | _ => none

/-- Embedding of `measureAFx(metric, amx, adx, adx_spec)` from
`calcsrd/afx.py`:

    datums = {}
    datums['ADx'] = adx.datum
    if not np.isnan(amx.quantity):
        quantity = 100.*np.mean(amx.extras['rmsDistMas'].quantity
                                > amx.quantity + adx_spec.threshold)*u.percent
    else:
        quantity = np.nan*u.percent
    datums.update(amx.extras)
    return Measurement(metric, quantity, extras=datums)
-/
def measureAFx (metric : String) (amx : Meas) (adx : AdxMeasurement)
    (adx_spec : AdxSpec) : Option Meas :=
  let datums := dictInsert ([] : List (String × Datum)) "ADx" adx.datum
  match isnanScalar amx.quantity with
  | none => none
  | some isNan =>
    let qOpt : Option RVal :=
      if isNan then
        some none
      else
        match dictGet amx.extras "rmsDistMas" with
        | none => none
        | some rmsDatum =>
          match rmsDatum.quantity with
          | PyQty.vec rms _ =>
            match amx.quantity with
            | PyQty.scalar amxVal _ =>
              let thr := addR amxVal adx_spec.threshold
              some (mulR (some 100) (meanBools (rms.map (fun r => gtR r thr))))
            | _ => none
          | _ => none
    match qOpt with
    | none => none
    | some q => some ⟨metric, PyQty.scalar q "percent", dictUpdate datums amx.extras⟩

/-- Lookup after a Python dict write: the written key reads back the new
value, all other keys are unchanged. -/
lemma dictGet_insert {κ α : Type} [DecidableEq κ] (d : List (κ × α)) (k : κ)
    (v : α) (q : κ) :
    dictGet (dictInsert d k v) q = if q = k then some v else dictGet d q := by
  induction d with
  | nil =>
    by_cases h : q = k
    · subst h; simp [dictGet, dictInsert]
    · have h2 : ¬k = q := fun hh => h hh.symm
      simp [dictGet, dictInsert, h, h2]
  | cons p d ih =>
    by_cases hp : p.1 = k
    · by_cases hq : q = k
      · subst hq; simp [dictGet, dictInsert, hp]
      · have hpq : p.1 ≠ q := fun h => hq (hp ▸ h).symm
        have h2 : ¬k = q := fun hh => hq hh.symm
        simp [dictGet, dictInsert, hp, hq, hpq, h2]
    · by_cases hpq : p.1 = q
      · have hqk : q ≠ k := fun h => hp (hpq.trans h)
        simp [dictGet, dictInsert, hp, hpq, hqk]
      · simp [dictGet, dictInsert, hp, hpq, ih]

/-- Updating with entries whose keys all differ from `q` leaves the lookup of
`q` unchanged. -/
lemma dictGet_update_not_mem {κ α : Type} [DecidableEq κ] (other : List (κ × α)) :
    ∀ (d : List (κ × α)) (q : κ), (∀ p ∈ other, p.1 ≠ q) →
    dictGet (dictUpdate d other) q = dictGet d q := by
  induction other with
  | nil => intro d q _; rfl
  | cons p rest ih =>
    intro d q hne
    have hstep : dictUpdate d (p :: rest) = dictUpdate (dictInsert d p.1 p.2) rest := rfl
    rw [hstep, ih _ q (fun x hx => hne x (List.mem_cons_of_mem p hx)),
      dictGet_insert]
    have : q ≠ p.1 := fun h => hne p (List.mem_cons_self p rest) h.symm
    simp [this]

/-- With duplicate-free keys (as in any Python dict), updating with `other`
makes every entry of `other` readable in the result. -/
lemma dictGet_update_mem {κ α : Type} [DecidableEq κ] (other : List (κ × α)) :
    ∀ (d : List (κ × α)) (k : κ) (v : α), (dictKeys other).Nodup →
    (k, v) ∈ other → dictGet (dictUpdate d other) k = some v := by
  induction other with
  | nil => intro d k v _ h; simp at h
  | cons p rest ih =>
    intro d k v hnd hmem
    have hstep : dictUpdate d (p :: rest) = dictUpdate (dictInsert d p.1 p.2) rest := rfl
    simp only [dictKeys, List.map_cons, List.nodup_cons] at hnd
    rcases List.mem_cons.mp hmem with hm | hm
    · subst hm
      rw [hstep, dictGet_update_not_mem rest _ k
        (fun x hx hxk => hnd.1 (by simpa [hxk] using List.mem_map_of_mem Prod.fst hx)),
        dictGet_insert]
      simp
    · exact hstep ▸ ih _ k v hnd.2 hm

/-- A successful dict lookup means the pair is an entry of the dict. -/
lemma mem_of_dictGet {κ α : Type} [DecidableEq κ] (d : List (κ × α)) (k : κ)
    (v : α) (h : dictGet d k = some v) : (k, v) ∈ d := by
  induction d with
  | nil => simp [dictGet] at h
  | cons p d ih =>
    by_cases hp : p.1 = k
    · simp only [dictGet, if_pos hp, Option.some.injEq] at h
      exact List.mem_cons.mpr (Or.inl (Prod.ext hp h).symm)
    · simp only [dictGet, if_neg hp] at h
      exact List.mem_cons_of_mem p (ih h)

/-- A failed dict lookup means no entry of the dict has that key. -/
lemma not_mem_of_dictGet_none {κ α : Type} [DecidableEq κ] (d : List (κ × α))
    (k : κ) (h : dictGet d k = none) : ∀ p ∈ d, p.1 ≠ k := by
  induction d with
  | nil => intro p hp; simp at hp
  | cons p d ih =>
    by_cases hp : p.1 = k
    · simp [dictGet, hp] at h
    · simp only [dictGet, if_neg hp] at h
      intro x hx
      rcases List.mem_cons.mp hx with hx | hx
      · exact hx ▸ hp
      · exact ih h x hx

/-- Helper: on a scalar non-NaN AMx quantity with a 1-D `rmsDistMas` extra,
`measureAFx` succeeds and returns the numpy mask-mean formula. -/
lemma measureAFx_eq_of_scalar (metric : String) (amx : Meas) (adx : AdxMeasurement)
    (t : AdxSpec) (a : ℚ) (u1 u2 d2 : String) (rv : List RVal)
    (hq : amx.quantity = PyQty.scalar (some a) u1)
    (hx : dictGet amx.extras "rmsDistMas" = some ⟨PyQty.vec rv u2, d2⟩) :
    measureAFx metric amx adx t =
      some ⟨metric,
        PyQty.scalar
          (mulR (some 100)
            (meanBools (rv.map (fun r => gtR r (addR (some a) t.threshold)))))
          "percent",
        dictUpdate (dictInsert [] "ADx" adx.datum) amx.extras⟩ := by
  unfold measureAFx
  rw [hq, hx]
  simp [isnanScalar]

/-- C1: for every AMx measurement with non-NaN quantity `a`, every ADx
specification threshold `t`, and every (nonempty, NaN-free) `rmsDistMas`
array in the AMx extras, `measureAFx` returns a measurement whose quantity
is 100 times the fraction of `rmsDistMas` entries strictly greater than
`a + t`, in percent; in particular for `a = 5`, `t = 2` and
`rmsDistMas = [3,4,5,6,7,8,9,10]` the result is `37.5` percent. -/
theorem afx_outlier_fraction :
    (∀ (metric : String) (amx : Meas) (adx : AdxMeasurement) (a t : ℚ)
      (u1 u2 d2 : String) (rms : List ℚ),
      amx.quantity = PyQty.scalar (some a) u1 →
      dictGet amx.extras "rmsDistMas" = some ⟨PyQty.vec (rms.map some) u2, d2⟩ →
      rms ≠ [] →
      ∃ m, measureAFx metric amx adx ⟨some t⟩ = some m ∧
        m.quantity = PyQty.scalar
          (some (100 * ((rms.countP (fun r => decide (a + t < r)) : ℚ) /
            (rms.length : ℚ))))
          "percent") ∧
    (∃ m, measureAFx "AF1"
        ⟨"AM1", PyQty.scalar (some 5) "mas",
          [("rmsDistMas",
            ⟨PyQty.vec [some 3, some 4, some 5, some 6, some 7, some 8,
              some 9, some 10] "mas", "rms"⟩)]⟩
        ⟨⟨PyQty.scalar (some 20) "mas", "AD1 threshold"⟩⟩ ⟨some 2⟩ = some m ∧
      m.quantity = PyQty.scalar (some (75 / 2)) "percent") := by
  have hgen : ∀ (metric : String) (amx : Meas) (adx : AdxMeasurement) (a t : ℚ)
      (u1 u2 d2 : String) (rms : List ℚ),
      amx.quantity = PyQty.scalar (some a) u1 →
      dictGet amx.extras "rmsDistMas" = some ⟨PyQty.vec (rms.map some) u2, d2⟩ →
      rms ≠ [] →
      ∃ m, measureAFx metric amx adx ⟨some t⟩ = some m ∧
        m.quantity = PyQty.scalar
          (some (100 * ((rms.countP (fun r => decide (a + t < r)) : ℚ) /
            (rms.length : ℚ))))
          "percent" := by
    intro metric amx adx a t u1 u2 d2 rms hq hx hne
    rw [measureAFx_eq_of_scalar metric amx adx ⟨some t⟩ a u1 u2 d2 (rms.map some) hq hx]
    refine ⟨_, rfl, ?_⟩
    have hlen : (rms.map some).length ≠ 0 := by
      simpa using fun h => hne (List.eq_nil_of_length_eq_zero h)
    simp only [meanBools, List.length_map, List.countP_map, hlen, if_neg hlen]
    have hmask : ∀ r : ℚ,
        ((fun r => gtR r (addR (some a) (some t))) ∘ some) r
          = (fun r : ℚ => decide (a + t < r)) r := by
      intro r
      simp [gtR, addR]
    simp only [Function.comp] at hmask ⊢
    rw [List.countP_congr (fun r _ => by simpa using congrArg id (hmask r))]
    have hne2 : rms.length ≠ 0 := fun h => hne (List.eq_nil_of_length_eq_zero h)
    rw [if_neg hne2]
    simp [mulR]
  refine ⟨hgen, ?_⟩
  obtain ⟨m, hm, hmq⟩ := hgen "AF1"
    ⟨"AM1", PyQty.scalar (some 5) "mas",
      [("rmsDistMas",
        ⟨PyQty.vec [some 3, some 4, some 5, some 6, some 7, some 8,
          some 9, some 10] "mas", "rms"⟩)]⟩
    ⟨⟨PyQty.scalar (some 20) "mas", "AD1 threshold"⟩⟩ 5 2 "mas" "mas" "rms"
    [3, 4, 5, 6, 7, 8, 9, 10] rfl (by rfl) (by decide)
  refine ⟨m, hm, ?_⟩
  rw [hmq]
  norm_num [List.countP, List.countP.go]

/-- C2: whenever the AMx quantity is NaN, `measureAFx` succeeds (raises no
error) and returns a NaN quantity in percent, whatever the extras hold. -/
theorem afx_nan_propagates :
    (∀ (metric : String) (amx : Meas) (adx : AdxMeasurement) (adx_spec : AdxSpec)
      (u : String),
      amx.quantity = PyQty.scalar none u →
      ∃ m, measureAFx metric amx adx adx_spec = some m ∧
        m.quantity = PyQty.scalar none "percent") ∧
    (∃ m, measureAFx "AF1"
        ⟨"AM1", PyQty.scalar none "mas",
          [("junk", ⟨PyQty.scalar (some 3) "mas", "unrelated"⟩)]⟩
        ⟨⟨PyQty.scalar (some 20) "mas", "AD1 threshold"⟩⟩ ⟨none⟩ = some m ∧
      m.quantity = PyQty.scalar none "percent") := by
  constructor
  · intro metric amx adx adx_spec u hq
    have h : measureAFx metric amx adx adx_spec =
        some ⟨metric, PyQty.scalar none "percent",
          dictUpdate (dictInsert [] "ADx" adx.datum) amx.extras⟩ := by
      unfold measureAFx
      rw [hq]
      simp [isnanScalar]
    exact ⟨_, h, rfl⟩
  · refine ⟨⟨"AF1", PyQty.scalar none "percent",
      [("ADx", ⟨PyQty.scalar (some 20) "mas", "AD1 threshold"⟩),
       ("junk", ⟨PyQty.scalar (some 3) "mas", "unrelated"⟩)]⟩, by rfl, by rfl⟩

/-- C1 witness instantiating the general clause at the spec's example
input. -/
theorem afx_outlier_fraction_witness :
    ∃ m, measureAFx "AF2"
        ⟨"AM2", PyQty.scalar (some 5) "mas",
          [("rmsDistMas", ⟨PyQty.vec [some 6, some 9] "mas", "rms"⟩)]⟩
        ⟨⟨PyQty.scalar (some 20) "mas", "AD2 threshold"⟩⟩ ⟨some 2⟩ = some m ∧
      m.quantity = PyQty.scalar
        (some (100 * ((List.countP (fun r => decide ((5 : ℚ) + 2 < r)) [6, 9] : ℚ) /
          (([6, 9] : List ℚ).length : ℚ))))
        "percent" :=
  afx_outlier_fraction.1 "AF2"
    ⟨"AM2", PyQty.scalar (some 5) "mas",
      [("rmsDistMas", ⟨PyQty.vec [some 6, some 9] "mas", "rms"⟩)]⟩
    ⟨⟨PyQty.scalar (some 20) "mas", "AD2 threshold"⟩⟩ 5 2 "mas" "mas" "rms"
    [6, 9] rfl (by rfl) (by decide)

/-- C2 witness instantiating the general clause at a concrete NaN input. -/
theorem afx_nan_propagates_witness :
    ∃ m, measureAFx "AF3"
        ⟨"AM3", PyQty.scalar none "mas",
          [("rmsDistMas", ⟨PyQty.vec [some 1] "mas", "rms"⟩)]⟩
        ⟨⟨PyQty.scalar (some 30) "mas", "AD3 threshold"⟩⟩ ⟨some 3⟩ = some m ∧
      m.quantity = PyQty.scalar none "percent" :=
  afx_nan_propagates.1 "AF3"
    ⟨"AM3", PyQty.scalar none "mas",
      [("rmsDistMas", ⟨PyQty.vec [some 1] "mas", "rms"⟩)]⟩
    ⟨⟨PyQty.scalar (some 30) "mas", "AD3 threshold"⟩⟩ ⟨some 3⟩ "mas" rfl

/-- Helper: whenever `measureAFx` succeeds, the extras of the result are the
fresh `{'ADx': adx.datum}` dict updated with the AMx extras. -/
lemma measureAFx_extras_eq (metric : String) (amx : Meas) (adx : AdxMeasurement)
    (adx_spec : AdxSpec) (m : Meas)
    (hm : measureAFx metric amx adx adx_spec = some m) :
    m.extras = dictUpdate (dictInsert [] "ADx" adx.datum) amx.extras := by
  unfold measureAFx at hm
  repeat' split at hm
  all_goals first
  | (simp only [Option.some.injEq] at hm; subst hm; rfl)
  | (simp at hm; subst hm; rfl)
  | simp at hm

/-- C5 counterexample: an input on which the claim fails.  When the AMx
extras already contain a key `'ADx'`, the statement `datums.update(amx.extras)`
overwrites the recorded threshold datum, so the result's `'ADx'` entry is the
AMx datum, not the ADx threshold datum passed in. -/
theorem afx_adx_key_overwritten :
    ∃ m, measureAFx "AF1"
        ⟨"AM1", PyQty.scalar none "mas",
          [("ADx", ⟨PyQty.scalar (some 1) "mas", "stale datum from amx"⟩)]⟩
        ⟨⟨PyQty.scalar (some 2) "mas", "AD1 threshold datum"⟩⟩ ⟨some 2⟩ = some m ∧
      dictGet m.extras "ADx" =
        some ⟨PyQty.scalar (some 1) "mas", "stale datum from amx"⟩ ∧
      (⟨PyQty.scalar (some 1) "mas", "stale datum from amx"⟩ : Datum) ≠
        ⟨PyQty.scalar (some 2) "mas", "AD1 threshold datum"⟩ := by
  refine ⟨⟨"AF1", PyQty.scalar none "percent",
    [("ADx", ⟨PyQty.scalar (some 1) "mas", "stale datum from amx"⟩)]⟩,
    by rfl, by rfl, by decide⟩

/-- C5 (amended): the extras of every successful `measureAFx` result contain
every key-value pair of the AMx extras; and the ADx threshold datum is
recorded under key `'ADx'` whenever `'ADx'` is not itself a key of the AMx
extras (on a collision the AMx entry wins). -/
theorem afx_extras_provenance (metric : String) (amx : Meas) (adx : AdxMeasurement)
    (adx_spec : AdxSpec) (m : Meas)
    (hnd : (dictKeys amx.extras).Nodup)
    (hm : measureAFx metric amx adx adx_spec = some m) :
    (∀ k v, dictGet amx.extras k = some v → dictGet m.extras k = some v) ∧
    (dictGet amx.extras "ADx" = none → dictGet m.extras "ADx" = some adx.datum) := by
  have hex := measureAFx_extras_eq metric amx adx adx_spec m hm
  constructor
  · intro k v hkv
    rw [hex]
    exact dictGet_update_mem amx.extras _ k v hnd (mem_of_dictGet _ _ _ hkv)
  · intro hnone
    rw [hex, dictGet_update_not_mem amx.extras _ "ADx"
      (not_mem_of_dictGet_none _ _ hnone)]
    rfl

/-- C5 amended-claim witness at a concrete input without an `'ADx'` key. -/
theorem afx_extras_provenance_witness :
    (∀ k v,
      dictGet [("rmsDistMas", (⟨PyQty.vec [some 3] "mas", "rms"⟩ : Datum))] k
        = some v →
      dictGet (Meas.extras ⟨"AF1", PyQty.scalar none "percent",
        [("ADx", ⟨PyQty.scalar (some 2) "mas", "AD1 threshold datum"⟩),
         ("rmsDistMas", ⟨PyQty.vec [some 3] "mas", "rms"⟩)]⟩) k = some v) ∧
    (dictGet [("rmsDistMas", (⟨PyQty.vec [some 3] "mas", "rms"⟩ : Datum))] "ADx"
        = none →
      dictGet (Meas.extras ⟨"AF1", PyQty.scalar none "percent",
        [("ADx", ⟨PyQty.scalar (some 2) "mas", "AD1 threshold datum"⟩),
         ("rmsDistMas", ⟨PyQty.vec [some 3] "mas", "rms"⟩)]⟩) "ADx" =
        some (AdxMeasurement.datum
          ⟨⟨PyQty.scalar (some 2) "mas", "AD1 threshold datum"⟩⟩)) :=
  afx_extras_provenance "AF1"
    ⟨"AM1", PyQty.scalar none "mas",
      [("rmsDistMas", ⟨PyQty.vec [some 3] "mas", "rms"⟩)]⟩
    ⟨⟨PyQty.scalar (some 2) "mas", "AD1 threshold datum"⟩⟩ ⟨some 2⟩
    ⟨"AF1", PyQty.scalar none "percent",
      [("ADx", ⟨PyQty.scalar (some 2) "mas", "AD1 threshold datum"⟩),
       ("rmsDistMas", ⟨PyQty.vec [some 3] "mas", "rms"⟩)]⟩
    (by decide) (by rfl)

/-- Re-run of the body of `measureAFx` that threads the `amx` argument
through explicitly, returning next to the result the state of `amx` after the
call.  Every assignment in the Python body writes the fresh local `datums`
dict (`datums = {}`, `datums['ADx'] = ...`, `datums.update(...)`) or the
local `quantity`; no statement assigns to `amx`, to `amx.quantity` or to
`amx.extras`, so the threaded value flows through every branch untouched. -/
def measureAFxTracked (metric : String) (amx : Meas) (adx : AdxMeasurement)
    (adx_spec : AdxSpec) : Option (Meas × Meas) :=
  let datums := dictInsert ([] : List (String × Datum)) "ADx" adx.datum
  match isnanScalar amx.quantity with
  | none => none
  | some isNan =>
    let qOpt : Option RVal :=
      if isNan then
        some none
      else
        match dictGet amx.extras "rmsDistMas" with
        | none => none
        | some rmsDatum =>
          match rmsDatum.quantity with
          | PyQty.vec rms _ =>
            match amx.quantity with
            | PyQty.scalar amxVal _ =>
              let thr := addR amxVal adx_spec.threshold
              some (mulR (some 100) (meanBools (rms.map (fun r => gtR r thr))))
            | _ => none
          | _ => none
    match qOpt with
    | none => none
    | some q =>
      some (⟨metric, PyQty.scalar q "percent", dictUpdate datums amx.extras⟩, amx)

/-- C10: `measureAFx` leaves its AMx input unchanged — the tracked run
returns exactly the `measureAFx` result paired with the untouched input
measurement (its quantity and extras included), on every input. -/
theorem afx_input_unchanged (metric : String) (amx : Meas) (adx : AdxMeasurement)
    (adx_spec : AdxSpec) :
    measureAFxTracked metric amx adx adx_spec =
      (measureAFx metric amx adx adx_spec).map (fun r => (r, amx)) := by
  unfold measureAFxTracked measureAFx
  cases isnanScalar amx.quantity with
  | none => rfl
  | some isNan =>
    simp only
    split
    · rfl
    · rfl

/-! ### PA2 (pa2.py) -/

/-- The value of `np.percentile(xs, q)` on NaN-free data, with numpy's
default linear-interpolation convention between order statistics: for sorted
data `s` of length `n`, the virtual rank is `q * (n - 1) / 100`, and the
result interpolates linearly between the order statistics at the floor and
ceiling of that rank. -/
def npPercentileQ (xs : List ℚ) (q : ℚ) : ℚ :=
  let s := xs.insertionSort (fun a b => a ≤ b)
  let n := s.length
  let rank := q * ((n : ℚ) - 1) / 100
  let i := (⌊rank⌋).toNat
  let g := rank - ((⌊rank⌋ : ℤ) : ℚ)
  let lo := s.getD i 0
  let hi := s.getD (i + 1) lo
  lo + g * (hi - lo)

/-- `np.percentile` on a 1-D array: raises on empty data or a percentile
outside `[0, 100]`; yields NaN when the data contain a NaN; otherwise
computes the linear-interpolation percentile of the values. -/
def npPercentile (xs : List RVal) (q : ℚ) : Option RVal :=
  if xs.isEmpty then none
  else if q < 0 ∨ 100 < q then none
  else if xs.any (fun x => x.isNone) then some none
  else some (some (npPercentileQ (xs.filterMap id) q))

/-- Embedding of `measurePA2(metric, pa1, pf1_thresh)` from
`calcsrd/pa2.py`:

    datums = {}
    datums['pf1_thresh'] = Datum(quantity=pf1_thresh,
                                 description="Threshold from the PF1 specification")
    magDiffs = pa1.extras['magDiff'].quantity[0, :]
    pf1Percentile = 100.*u.percent - pf1_thresh
    return Measurement(metric,
                       np.percentile(np.abs(magDiffs), pf1Percentile) * magDiffs.unit,
                       extras=datums)

The `pf1_thresh` argument is the PF1 percentage value. -/
def measurePA2 (metric : String) (pa1 : Meas) (pf1_thresh : ℚ) : Option Meas :=
  let datums := dictInsert ([] : List (String × Datum)) "pf1_thresh"
    ⟨PyQty.scalar (some pf1_thresh) "percent", "Threshold from the PF1 specification"⟩
  match dictGet pa1.extras "magDiff" with
  | none => none
  | some md =>
    match md.quantity with
    | PyQty.mat rows unit =>
      match rows with
      | [] => none
      | magDiffs :: _ =>
        match npPercentile (magDiffs.map absR) (100 - pf1_thresh) with
        | none => none
        | some q => some ⟨metric, PyQty.scalar q unit, datums⟩
    | _ => none

/-- C3: `measurePA2` depends only on the first row of the `magDiff` array —
two PA1 measurements whose `magDiff` matrices carry the same unit and agree
on row 0 (rows 1 and above arbitrary) give identical results under the same
metric and PF1 threshold. -/
theorem pa2_uses_first_row_only (metric : String) (pa1 pa1a : Meas) (pf1 : ℚ)
    (rows rowsa : List (List RVal)) (u d da : String)
    (h1 : dictGet pa1.extras "magDiff" = some ⟨PyQty.mat rows u, d⟩)
    (h2 : dictGet pa1a.extras "magDiff" = some ⟨PyQty.mat rowsa u, da⟩)
    (hrow : rows.head? = rowsa.head?) :
    measurePA2 metric pa1 pf1 = measurePA2 metric pa1a pf1 := by
  unfold measurePA2
  rw [h1, h2]
  cases rows with
  | nil =>
    cases rowsa with
    | nil => rfl
    | cons r rs => simp at hrow
  | cons r rs =>
    cases rowsa with
    | nil => simp at hrow
    | cons ra rsa =>
      simp only [List.head?_cons, Option.some.injEq] at hrow
      rw [hrow]

/-- C3 witness: two concrete PA1 measurements differing only in the second
resampling row give the same PA2 result. -/
theorem pa2_uses_first_row_only_witness :
    measurePA2 "PA2"
      ⟨"PA1", PyQty.scalar (some 1) "mmag",
        [("magDiff", ⟨PyQty.mat [[some 1, some 2], [some 3, some 4]] "mmag", "d"⟩)]⟩
      20 =
    measurePA2 "PA2"
      ⟨"PA1", PyQty.scalar (some 1) "mmag",
        [("magDiff", ⟨PyQty.mat [[some 1, some 2], [some 9, none]] "mmag", "d2"⟩)]⟩
      20 :=
  pa2_uses_first_row_only "PA2" _ _ 20
    [[some 1, some 2], [some 3, some 4]] [[some 1, some 2], [some 9, none]]
    "mmag" "d" "d2" rfl rfl rfl

/-- Absolute values distribute over the embedding of a NaN-free array. -/
lemma map_absR_map_some (l : List ℚ) :
    (l.map some).map absR = (l.map (fun v => |v|)).map some := by
  simp only [List.map_map]
  rfl

/-- On NaN-free data with a percentile inside `[0, 100]`, `np.percentile`
returns the rational linear-interpolation percentile. -/
lemma npPercentile_map_some (l : List ℚ) (q : ℚ) (hne : l ≠ [])
    (h0 : 0 ≤ q) (h100 : q ≤ 100) :
    npPercentile (l.map some) q = some (some (npPercentileQ l q)) := by
  unfold npPercentile
  have he : (l.map some).isEmpty = false := by
    simp [List.isEmpty_iff, hne]
  have hq : ¬(q < 0 ∨ 100 < q) := by
    push_neg
    exact ⟨h0, h100⟩
  have hnan : (l.map some).any (fun x => x.isNone) = false := by
    simp [List.any_map, Function.comp]
  rw [he]
  simp only [Bool.false_eq_true, if_false, if_neg hq, hnan]
  have hfm : (l.map some).filterMap id = l := by
    induction l with
    | nil => rfl
    | cons a l ih => simp [List.filterMap_cons, ih]
  rw [hfm]

/-- C4: for every PA1 measurement whose `magDiff` matrix has a NaN-free,
nonempty first row and every PF1 threshold with `100 − PF1` in `[0, 100]`,
`measurePA2` returns the `(100 − PF1)`-th linear-interpolation percentile of
the absolute values of row 0, carrying the unit of the `magDiff` array, with
the PF1 threshold recorded in the extras. -/
theorem pa2_percentile_formula (metric : String) (pa1 : Meas) (pf1 : ℚ)
    (rows : List (List RVal)) (row0 : List ℚ) (u d : String)
    (h1 : dictGet pa1.extras "magDiff" = some ⟨PyQty.mat rows u, d⟩)
    (hrow : rows.head? = some (row0.map some))
    (hne : row0 ≠ [])
    (h0 : 0 ≤ 100 - pf1) (h100 : 100 - pf1 ≤ 100) :
    measurePA2 metric pa1 pf1 =
      some ⟨metric,
        PyQty.scalar (some (npPercentileQ (row0.map (fun v => |v|)) (100 - pf1))) u,
        [("pf1_thresh",
          ⟨PyQty.scalar (some pf1) "percent",
            "Threshold from the PF1 specification"⟩)]⟩ := by
  unfold measurePA2
  rw [h1]
  cases rows with
  | nil => simp at hrow
  | cons r rs =>
    simp only [List.head?_cons, Option.some.injEq] at hrow
    subst hrow
    have habs : (row0.map some).map absR = (row0.map (fun v => |v|)).map some :=
      map_absR_map_some row0
    have hmapne : row0.map (fun v => |v|) ≠ [] := by
      simpa using hne
    dsimp only
    rw [habs, npPercentile_map_some _ _ hmapne h0 h100]
    rfl

/-- C4 witness: for PF1 = 20 % and first-row absolute magnitude differences
`[0.1, 0.2, ..., 1.0]`, PA2 is the linearly interpolated 80th percentile,
`0.82`, in the unit of the array. -/
theorem pa2_percentile_formula_witness :
    measurePA2 "PA2"
      ⟨"PA1", PyQty.scalar (some 1) "mmag",
        [("magDiff",
          ⟨PyQty.mat [[some (1/10), some (2/10), some (3/10), some (4/10),
            some (5/10), some (6/10), some (7/10), some (8/10), some (9/10),
            some 1]] "mmag", "deltas"⟩)]⟩
      20 =
      some ⟨"PA2", PyQty.scalar (some (41/50)) "mmag",
        [("pf1_thresh",
          ⟨PyQty.scalar (some 20) "percent",
            "Threshold from the PF1 specification"⟩)]⟩ := by
  rw [pa2_percentile_formula "PA2"
    ⟨"PA1", PyQty.scalar (some 1) "mmag",
      [("magDiff",
        ⟨PyQty.mat [[some (1/10), some (2/10), some (3/10), some (4/10),
          some (5/10), some (6/10), some (7/10), some (8/10), some (9/10),
          some 1]] "mmag", "deltas"⟩)]⟩ 20
    [[some (1/10), some (2/10), some (3/10), some (4/10), some (5/10),
      some (6/10), some (7/10), some (8/10), some (9/10), some 1]]
    [1/10, 2/10, 3/10, 4/10, 5/10, 6/10, 7/10, 8/10, 9/10, 1]
    "mmag" "deltas" rfl (by norm_num) (by simp) (by norm_num) (by norm_num)]
  norm_num [npPercentileQ, List.insertionSort, List.orderedInsert, List.getD,
    List.get?, Int.toNat_ofNat, abs_of_nonneg]
  norm_num [show Int.toNat 7 = 7 from rfl]

/-! ### Report ingestion and tabulation (performance_summary.py) -/

/-- The slice of a specification object that the tabulation code reads:
`spec.quantity.value`. -/
structure SpecEntry where
  quantityValue : RVal
deriving DecidableEq

/-- A metric definition as the reporter consumes it: its name, its comparison
operator symbol, and its read-only specification lookup table keyed by
(level, filter name). -/
structure MetricObj where
  name : String
  operator_str : String
  specs : List ((String × String) × SpecEntry)
deriving DecidableEq

/-- `metric.get_spec(level, filter_name=...)`: consult the read-only
specification table; a missing entry raises (propagates). -/
def MetricObj.get_spec (m : MetricObj) (level filter_name : String) :
    Option SpecEntry :=
  dictGet m.specs (level, filter_name)

/-- The quantity attribute of a reporter-side measurement: `.value` may be
NaN. -/
structure TQty where
  value : RVal
deriving DecidableEq

/-- A measurement as `objects_to_table` reads it: a specification-level tag
(`None` meaning it applies at all levels), its metric, an optional quantity
(`None` when absent), and a unit. -/
structure TMeas where
  spec_name : Option String
  metric : MetricObj
  quantity : Option TQty
  unit : String
deriving DecidableEq

/-- A Job: the measurements of one validation run for one filter. -/
structure Job where
  measurements : List TMeas
deriving DecidableEq

/-- A table cell for the measured value: the literal dash string, or a
numeric value (possibly NaN). -/
inductive CellVal where
  | dash
  | num (v : RVal)
deriving DecidableEq

/-- One row of the report table:
(metric name, filter, measured value, unit, operator, required spec value).
The astropy `Table` wrapper (column names and the constant empty `Comments`
column added afterwards) is presentation-only and is not modelled. -/
structure Row where
  metricName : String
  filterName : String
  value : CellVal
  unit : String
  operatorStr : String
  specValue : RVal
deriving DecidableEq

/-- The row built from one (kept) measurement in the body of the
`objects_to_table` loop:

    m = meas.metric
    spec = m.get_spec(level, filter_name=filter_name)
    if meas.quantity is None:
        meas_quantity_value = "--"
    else:
        meas_quantity_value = meas.quantity.value
    this_row = [m.name, filter_name, meas_quantity_value, meas.unit,
                m.operator_str, spec.quantity.value]
-/
def rowOfMeas (level filter_name : String) (meas : TMeas) : Option Row :=
  match meas.metric.get_spec level filter_name with
  | none => none
  | some spec =>
    let v : CellVal :=
      match meas.quantity with
      | none => CellVal.dash
      | some q => CellVal.num q.value
    some ⟨meas.metric.name, filter_name, v, meas.unit,
      meas.metric.operator_str, spec.quantityValue⟩

/-- The inner loop of `objects_to_table` over one Job's measurements:
measurements whose `spec_name` is set and differs from `level` are skipped
(`continue`); every other measurement contributes exactly one row. -/
def jobRows (level filter_name : String) : List TMeas → Option (List Row)
  | [] => some []
  | meas :: rest =>
    if meas.spec_name.isSome && meas.spec_name != some level then
      jobRows level filter_name rest
    else
      match rowOfMeas level filter_name meas with
      | none => none
      | some r =>
        match jobRows level filter_name rest with
        | none => none
        | some rs => some (r :: rs)

/-- The outer loop of `objects_to_table` over the `filter → Job` mapping, in
iteration (insertion) order. -/
def tableRows (level : String) : List (String × Job) → Option (List Row)
  | [] => some []
  | (filter_name, obj) :: rest =>
    match jobRows level filter_name obj.measurements with
    | none => none
    | some rs =>
      match tableRows level rest with
      | none => none
      | some more => some (rs ++ more)

/-- Embedding of `objects_to_table(input_objects, level='design')` from
`performance_summary.py`: the list of emitted rows in iteration order. -/
def objects_to_table (input_objects : List (String × Job)) (level : String) :
    Option (List Row) :=
  tableRows level input_objects

/-- Mapping an `Option`-returning function over a list, failing if any
element fails (the shape `objects_to_table` is proven equal to). -/
def optionMapM {α β : Type} (f : α → Option β) : List α → Option (List β)
  | [] => some []
  | a :: l =>
    match f a with
    | none => none
    | some b =>
      match optionMapM f l with
      | none => none
      | some bs => some (b :: bs)

/-- The keep predicate of the tabulation loop: a measurement is kept when its
`spec_name` is unset or equals the requested level. -/
def keepMeas (level : String) (meas : TMeas) : Bool :=
  !(meas.spec_name.isSome && meas.spec_name != some level)

/-! ### Report ingestion (performance_summary.py, ingest_data) -/

/-- The loop of `ingest_data`: for each file, deserialize a Job
(`load_json_output`), extract its filter name (`get_filter_name_from_job`),
and store `jobs[filter_name] = job`.  The two helpers live outside the
sources under scrutiny and are passed in as function parameters `load` and
`get_filter_name`; each returns `none` when it fails (malformed JSON or
undeterminable filter name), which aborts the whole ingestion. -/
def ingestLoop (load : String → Option Job) (get_filter_name : Job → Option String) :
    List (String × Job) → List String → Option (List (String × Job))
  | jobs, [] => some jobs
  | jobs, file :: rest =>
    match load file with
    | none => none
    | some job =>
      match get_filter_name job with
      | none => none
      | some filter_name =>
        ingestLoop load get_filter_name (dictInsert jobs filter_name job) rest

/-- Embedding of `ingest_data(filenames)` from `performance_summary.py`,
starting from the empty `jobs = {}` dict. -/
def ingest_data (load : String → Option Job)
    (get_filter_name : Job → Option String) (filenames : List String) :
    Option (List (String × Job)) :=
  ingestLoop load get_filter_name [] filenames

/-- The Job deserialized from the last file in list order whose Job carries
the given filter name, if any (the value C6 says the mapping binds). -/
def lastJobFor (load : String → Option Job)
    (get_filter_name : Job → Option String) (fn : String) :
    List String → Option Job
  | [] => none
  | file :: rest =>
    match lastJobFor load get_filter_name fn rest with
    | some j => some j
    | none =>
      match load file with
      | none => none
      | some job => if get_filter_name job = some fn then some job else none

/-! ### float_or_dash (performance_summary.py) -/

/-- A Python value as fed to `float_or_dash`: `None`, a string, or a
number. -/
inductive PyVal where
  | pynone
  | pystr (s : String)
  | pynum (q : ℚ)
deriving DecidableEq

/-- Leading digits of a character list, with the remainder. -/
def takeDigits : List Char → List Char × List Char
  | [] => ([], [])
  | c :: cs =>
    if c.isDigit then
      let p := takeDigits cs
      (c :: p.1, p.2)
    else ([], c :: cs)

/-- Numeric value of a digit list (most significant first). -/
def digitsToNat (ds : List Char) : Nat :=
  ds.foldl (fun a c => 10 * a + (c.toNat - 48)) 0

/-- Model of Python's `float(s)` on strings, covering plain decimal forms
`[+-]? digits [. digits]?` and `[+-]? . digits`; every other string fails to
parse (raises `ValueError`). -/
def pyFloatOfString (s : String) : Option ℚ :=
  let cs := s.toList
  let sp : Bool × List Char :=
    match cs with
    | '-' :: r => (true, r)
    | '+' :: r => (false, r)
    | r => (false, r)
  let ip := takeDigits sp.2
  let core : Option ℚ :=
    match ip.2 with
    | [] => if ip.1.isEmpty then none else some (digitsToNat ip.1 : ℚ)
    | '.' :: r2 =>
      let fp := takeDigits r2
      if fp.2.isEmpty then
        if ip.1.isEmpty && fp.1.isEmpty then none
        else some ((digitsToNat ip.1 : ℚ) +
          (digitsToNat fp.1 : ℚ) / ((10 : ℚ) ^ fp.1.length))
      else none
    | _ => none
  match core with
  | none => none
  | some v => some (if sp.1 then -v else v)

/-- Model of Python's `float(f)` coercion on the values `float_or_dash`
receives: `None` raises `TypeError`, strings parse or raise `ValueError`,
numbers coerce to themselves. -/
def pyFloat : PyVal → Option ℚ
  | PyVal.pynone => none
  | PyVal.pystr s => pyFloatOfString s
  | PyVal.pynum q => some q

/-- Two-digit zero-padded rendering of a number below 100. -/
def padTwo (n : Nat) : String :=
  if n < 10 then "0" ++ toString n else toString n

/-- Round half to even at the integers (the rounding `'{:.2f}'.format`
applies at the last kept digit). -/
def roundHalfEven (q : ℚ) : ℤ :=
  let f := ⌊q⌋
  let frac := q - (f : ℚ)
  if frac < 1 / 2 then f
  else if 1 / 2 < frac then f + 1
  else if f % 2 = 0 then f else f + 1

/-- Model of `'{:.2f}'.format(x)`: fixed two-decimal text. -/
def formatTwoDec (q : ℚ) : String :=
  let n := roundHalfEven (q * 100)
  let a := n.natAbs
  let s := toString (a / 100) ++ "." ++ padTwo (a % 100)
  if n < 0 then "-" ++ s else s

/-- Embedding of `float_or_dash(f)` from `performance_summary.py`:

    try:
        return format_string.format(float(f))
    except:
        return '--'
-/
def float_or_dash (f : PyVal) : String :=
  match pyFloat f with
  | some q => formatTwoDec q
  | none => "--"

/-! ### Theorems about the reporting layer -/

/-- The keep predicate agrees with "spec_name unset or equal to the level". -/
lemma keepMeas_eq_decide (level : String) (m : TMeas) :
    keepMeas level m =
      decide (m.spec_name = none ∨ m.spec_name = some level) := by
  cases h : m.spec_name with
  | none => simp [keepMeas, h]
  | some s =>
    by_cases hs : s = level
    · simp [keepMeas, h, hs]
    · simp [keepMeas, h, hs]

/-- The skip-then-emit loop over one Job equals filtering by the keep
predicate and emitting one row per kept measurement. -/
lemma jobRows_eq_filter (level fn : String) (ms : List TMeas) :
    jobRows level fn ms =
      optionMapM (rowOfMeas level fn) (ms.filter (keepMeas level)) := by
  induction ms with
  | nil => rfl
  | cons m rest ih =>
    by_cases hk : keepMeas level m
    · have hk3 : (!(m.spec_name.isSome && m.spec_name != some level)) = true := hk
      have hc : (m.spec_name.isSome && m.spec_name != some level) = false := by
        cases hcc : (m.spec_name.isSome && m.spec_name != some level) with
        | false => rfl
        | true => rw [hcc] at hk3; exact absurd hk3 (by decide)
      simp only [jobRows, hc, Bool.false_eq_true, if_false, List.filter_cons,
        hk, if_true, optionMapM, ih]
      cases rowOfMeas level fn m with
      | none => rfl
      | some r =>
        cases optionMapM (rowOfMeas level fn) (List.filter (keepMeas level) rest) with
        | none => rfl
        | some rs => rfl
    · have hc : (m.spec_name.isSome && m.spec_name != some level) = true := by
        cases hcc : (m.spec_name.isSome && m.spec_name != some level) with
        | true => rfl
        | false =>
          refine absurd ?_ hk
          show (!(m.spec_name.isSome && m.spec_name != some level)) = true
          rw [hcc]
          rfl
      have hk2 : keepMeas level m = false := by
        show (!(m.spec_name.isSome && m.spec_name != some level)) = false
        rw [hc]
        rfl
      simp only [jobRows, hc, if_true, List.filter_cons, hk2,
        Bool.false_eq_true, if_false, ih]

/-- `optionMapM` over an appended list splits into both halves. -/
lemma optionMapM_append {α β : Type} (f : α → Option β) (l1 l2 : List α) :
    optionMapM f (l1 ++ l2) =
      match optionMapM f l1, optionMapM f l2 with
      | some a, some b => some (a ++ b)
      | _, _ => none := by
  induction l1 with
  | nil =>
    simp only [List.nil_append]
    cases optionMapM f l2 with
    | none => rfl
    | some b => rfl
  | cons a l ih =>
    cases hfa : f a with
    | none => simp only [List.cons_append, optionMapM, hfa]
    | some b =>
      cases h1 : optionMapM f l with
      | none =>
        cases h2 : optionMapM f l2 with
        | none =>
          simp only [List.cons_append, optionMapM, List.append_eq, hfa, ih, h1, h2]
        | some b2 =>
          simp only [List.cons_append, optionMapM, List.append_eq, hfa, ih, h1, h2]
      | some bs =>
        cases h2 : optionMapM f l2 with
        | none =>
          simp only [List.cons_append, optionMapM, List.append_eq, hfa, ih, h1, h2]
        | some b2 =>
          simp only [List.cons_append, optionMapM, List.append_eq, hfa, ih, h1, h2]

/-- `optionMapM` over a mapped list composes the functions. -/
lemma optionMapM_map {α β γ : Type} (f : β → Option γ) (g : α → β) (l : List α) :
    optionMapM f (l.map g) = optionMapM (fun a => f (g a)) l := by
  induction l with
  | nil => rfl
  | cons a l ih => simp only [List.map_cons, optionMapM, ih]

/-- C7: at `level = 'design'`, `objects_to_table` emits exactly one row per
measurement whose `spec_name` is unset or equals `'design'`, in mapping
iteration order, and no row for any measurement whose `spec_name` is set to
a different value — the loop is equal to filtering by that predicate and
emitting one row per kept measurement. -/
theorem table_design_level_inclusion (input : List (String × Job)) :
    objects_to_table input "design" =
      optionMapM (fun pm => rowOfMeas "design" pm.1 pm.2)
        ((input.map (fun p =>
          (p.2.measurements.filter
            (fun m => decide (m.spec_name = none ∨ m.spec_name = some "design"))).map
            (fun m => (p.1, m)))).flatten) := by
  have hkeep : keepMeas "design" =
      fun m => decide (m.spec_name = none ∨ m.spec_name = some "design") :=
    funext (keepMeas_eq_decide "design")
  induction input with
  | nil => rfl
  | cons p rest ih =>
    show tableRows "design" (p :: rest) = _
    have hj : jobRows "design" p.1 p.2.measurements =
        optionMapM (rowOfMeas "design" p.1)
          (p.2.measurements.filter
            (fun m => decide (m.spec_name = none ∨ m.spec_name = some "design"))) := by
      rw [jobRows_eq_filter, hkeep]
    simp only [List.map_cons, List.flatten_cons, optionMapM_append, optionMapM_map]
    unfold tableRows
    rw [hj]
    rw [objects_to_table] at ih
    rw [ih]
    rcases hA : optionMapM (rowOfMeas "design" p.1)
      (p.2.measurements.filter
        (fun m => decide (m.spec_name = none ∨ m.spec_name = some "design")))
      with _ | rs <;>
    rcases hB : optionMapM (fun pm => rowOfMeas "design" pm.1 pm.2)
        ((rest.map (fun p =>
          (p.2.measurements.filter
            (fun m => decide (m.spec_name = none ∨ m.spec_name = some "design"))).map
            (fun m => (p.1, m)))).flatten) with _ | more <;>
    simp only [hA, hB] <;> rfl

/-- C8 counterexample: a measurement whose quantity is the NaN value (the
data model's "undefined") is emitted as its numeric NaN value, not as the
literal dash — the code emits the dash only for an absent (`None`)
quantity. -/
theorem table_nan_quantity_not_dash :
    objects_to_table
      [("r", ⟨[⟨none, ⟨"PA1", "<=", [(("design", "r"), ⟨some 5⟩)]⟩,
        some ⟨none⟩, "mag"⟩]⟩)] "design" =
      some [⟨"PA1", "r", CellVal.num none, "mag", "<=", some 5⟩] ∧
    CellVal.num none ≠ CellVal.dash := by
  exact ⟨rfl, by decide⟩

/-- C8 (amended): a row emitted by the tabulation carries the literal dash
as its measured value exactly when the measurement's quantity is `None`
(absent); a NaN-valued quantity is emitted as that numeric (NaN) value. -/
theorem table_dash_iff_quantity_none (level fn : String) (meas : TMeas) (r : Row)
    (h : rowOfMeas level fn meas = some r) :
    (r.value = CellVal.dash ↔ meas.quantity = none) := by
  unfold rowOfMeas at h
  cases hs : meas.metric.get_spec level fn with
  | none => rw [hs] at h; exact absurd h (by simp)
  | some spec =>
    rw [hs] at h
    cases hq : meas.quantity with
    | none =>
      rw [hq] at h
      rw [Option.some.injEq] at h
      subst h
      simp
    | some q =>
      rw [hq] at h
      rw [Option.some.injEq] at h
      subst h
      simp

/-- C8 amended-claim witness at a concrete measurement with `None`
quantity. -/
theorem table_dash_iff_quantity_none_witness :
    (Row.value ⟨"PA1", "r", CellVal.dash, "mag", "<=", some 5⟩ = CellVal.dash ↔
      TMeas.quantity ⟨none, ⟨"PA1", "<=", [(("design", "r"), ⟨some 5⟩)]⟩,
        none, "mag"⟩ = none) :=
  table_dash_iff_quantity_none "design" "r"
    ⟨none, ⟨"PA1", "<=", [(("design", "r"), ⟨some 5⟩)]⟩, none, "mag"⟩
    ⟨"PA1", "r", CellVal.dash, "mag", "<=", some 5⟩ rfl

/-- Unfolding equation of `lastJobFor` on a cons cell. -/
lemma lastJobFor_cons (load : String → Option Job)
    (get_filter_name : Job → Option String) (fn f : String) (rest : List String) :
    lastJobFor load get_filter_name fn (f :: rest) =
      match lastJobFor load get_filter_name fn rest with
      | some j => some j
      | none =>
        match load f with
        | none => none
        | some job =>
          if get_filter_name job = some fn then some job else none := rfl

/-- C6: whenever ingestion succeeds, the resulting mapping binds each filter
name to the Job deserialized from the last file in list order that yields
that filter name — earlier same-filter Jobs are overwritten. -/
theorem ingest_last_write_wins (load : String → Option Job)
    (get_filter_name : Job → Option String) (files : List String)
    (jobs : List (String × Job)) (fn : String)
    (h : ingest_data load get_filter_name files = some jobs) :
    dictGet jobs fn = lastJobFor load get_filter_name fn files := by
  have haux : ∀ (fs : List String) (acc out : List (String × Job)),
      ingestLoop load get_filter_name acc fs = some out →
      dictGet out fn =
        match lastJobFor load get_filter_name fn fs with
        | some j => some j
        | none => dictGet acc fn := by
    intro fs
    induction fs with
    | nil =>
      intro acc out h2
      have h3 : acc = out := by simpa [ingestLoop] using h2
      subst h3
      rfl
    | cons f rest ih =>
      intro acc out h2
      unfold ingestLoop at h2
      cases hl : load f with
      | none => rw [hl] at h2; exact absurd h2 (by simp)
      | some job =>
        rw [hl] at h2
        dsimp only at h2
        cases hg : get_filter_name job with
        | none => rw [hg] at h2; exact absurd h2 (by simp)
        | some fn2 =>
          rw [hg] at h2
          dsimp only at h2
          rw [ih _ _ h2]
          rw [lastJobFor_cons, hl]
          cases hrest : lastJobFor load get_filter_name fn rest with
          | some j => rfl
          | none =>
            dsimp only
            rw [hg, dictGet_insert]
            by_cases hfn : fn2 = fn
            · subst hfn
              simp
            · have hfn2 : ¬fn = fn2 := fun hh => hfn hh.symm
              simp [hfn, hfn2]
  have h2 := haux files [] jobs h
  rw [h2]
  cases lastJobFor load get_filter_name fn files with
  | none => rfl
  | some j => rfl

/-- C6 witness: two files whose Jobs carry the same filter name `'r'`; the
mapping binds `'r'` to the second file's Job. -/
theorem ingest_last_write_wins_witness :
    dictGet [("r", (⟨[⟨none, ⟨"PA1", "<=", []⟩, none, "mag"⟩]⟩ : Job))] "r" =
      lastJobFor
        (fun f => if f = "a.json" then some ⟨[]⟩
          else some ⟨[⟨none, ⟨"PA1", "<=", []⟩, none, "mag"⟩]⟩)
        (fun _ => some "r") "r" ["a.json", "b.json"] ∧
    lastJobFor
        (fun f => if f = "a.json" then some ⟨[]⟩
          else some ⟨[⟨none, ⟨"PA1", "<=", []⟩, none, "mag"⟩]⟩)
        (fun _ => some "r") "r" ["a.json", "b.json"] =
      some ⟨[⟨none, ⟨"PA1", "<=", []⟩, none, "mag"⟩]⟩ :=
  ⟨ingest_last_write_wins
    (fun f => if f = "a.json" then some ⟨[]⟩
      else some ⟨[⟨none, ⟨"PA1", "<=", []⟩, none, "mag"⟩]⟩)
    (fun _ => some "r") ["a.json", "b.json"]
    [("r", ⟨[⟨none, ⟨"PA1", "<=", []⟩, none, "mag"⟩]⟩)] "r" rfl, rfl⟩

/-- C9: `float_or_dash` renders any value that coerces to a number as fixed
two-decimal text, and renders the dash string for `None`, for non-numeric
strings, and for anything else that fails to coerce; in particular
`float_or_dash None = '--'`, `float_or_dash 'abc' = '--'` and
`float_or_dash 3.14159 = '3.14'`. -/
theorem float_or_dash_spec :
    (∀ (v : PyVal) (q : ℚ), pyFloat v = some q →
      float_or_dash v = formatTwoDec q) ∧
    (∀ v : PyVal, pyFloat v = none → float_or_dash v = "--") ∧
    float_or_dash PyVal.pynone = "--" ∧
    float_or_dash (PyVal.pystr "abc") = "--" ∧
    float_or_dash (PyVal.pynum (314159 / 100000)) = "3.14" := by
  refine ⟨?_, ?_, rfl, by rfl, ?_⟩
  · intro v q h
    unfold float_or_dash
    rw [h]
  · intro v h
    unfold float_or_dash
    rw [h]
  · show formatTwoDec (314159 / 100000) = "3.14"
    have h1 : roundHalfEven ((314159 / 100000 : ℚ) * 100) = 314 := by
      norm_num [roundHalfEven]
    unfold formatTwoDec
    rw [h1]
    rfl

/-- C9 witness instantiating the general coercion clauses at concrete
inputs. -/
theorem float_or_dash_spec_witness :
    float_or_dash (PyVal.pystr "7.5") = formatTwoDec (15 / 2) ∧
    float_or_dash (PyVal.pystr "mag") = "--" :=
  ⟨float_or_dash_spec.1 (PyVal.pystr "7.5") (15 / 2) (by
      have h0 : pyFloat (PyVal.pystr "7.5") =
          some ((digitsToNat ['7'] : ℚ) +
            (digitsToNat ['5'] : ℚ) / (10 : ℚ) ^ (1 : ℕ)) := rfl
      rw [h0]
      have h7 : digitsToNat ['7'] = 7 := rfl
      have h5 : digitsToNat ['5'] = 5 := rfl
      rw [h7, h5]
      norm_num),
   float_or_dash_spec.2.1 (PyVal.pystr "mag") (by rfl)⟩

end ValidateDrp
